import Mathlib

/-!
Shallow embedding of the `cpu-monitor` crate (and its in-tree `/proc/stat`
parsing module `src/proc.rs`), together with theorems checking the
natural-language specification against the code.

Modelling conventions:
* Rust `u64` values are `Nat`; every operation that wraps or checks is made
  explicit (`% 2 ^ 64`, `checked_add`, `checked_sub`).  Rust `i64` values are
  `Int` with explicit range checks where the code performs them.
* A Rust `panic!` / `.unwrap()` failure, and an `io::Error` return, are both
  modelled as `Option.none`: the operation aborts and yields no value.
* Strings are `List Char`; the line iterator fed to `Stat::from_iter` is a
  `List (List Char)` (one entry per line, newline stripped, as produced by
  `BufRead::lines`; I/O errors of the iterator itself are not modelled).
* Rust `f64` values are modelled as exact rationals `ℚ`, with the single
  value `F64.nonfinite` standing for every non-finite result (NaN or ±∞);
  division by zero is the only operation in this code base that can produce
  a non-finite value from finite operands.
-/

namespace CpuMonitor

/-- Modulus of Rust `u64` arithmetic. -/
def u64Mod : Nat := 2 ^ 64

/-- Largest `u64` value (`u64::MAX`). -/
def u64Max : Nat := 2 ^ 64 - 1

/-- Largest `i64` value (`i64::MAX`), as the unsigned bound used in `Stat::sub`. -/
def i64MaxN : Nat := 2 ^ 63 - 1

/-- Rust `u64::checked_add`: `some` of the sum when it fits in 64 bits, else `none`. -/
def checked_add (a b : Nat) : Option Nat :=
  if a + b < u64Mod then some (a + b) else none

/-- Rust `u64::checked_sub`: `some` of the difference when it does not underflow. -/
def checked_sub (a b : Nat) : Option Nat :=
  if b ≤ a then some (a - b) else none

/-- Rust `i64::checked_sub` on values already in `i64` range. -/
def checked_sub_i64 (a b : Int) : Option Int :=
  if -(2 ^ 63) ≤ a - b ∧ a - b < 2 ^ 63 then some (a - b) else none

/-- Rust `char::to_digit(10)`: `some` of the digit value for ASCII `'0'..='9'`. -/
def to_digit (c : Char) : Option Nat :=
  if c.isDigit then some (c.toNat - 48) else none

/-- Accumulation loop of `parse_u64` (src/proc.rs): after the first digit has
been consumed, repeatedly consume digits, accumulating `num = num * 10 + d`
with Rust release-mode (wrapping) `u64` arithmetic, and stop at the first
non-digit, which stays in the remainder. -/
def parse_u64_go (num : Nat) (input : List Char) : List Char × Nat :=
  match input with
  | [] => ([], num)
  | c :: rest =>
    match to_digit c with
    | some d => parse_u64_go ((num * 10 + d) % u64Mod) rest
    | none => (c :: rest, num)

/-- Embedding of `parse_u64` (src/proc.rs): the first character must be an
ASCII digit or the parse fails; then the maximal run of digits is consumed.
Returns (remaining input, value). -/
def parse_u64 (input : List Char) : Option (List Char × Nat) :=
  match input with
  | [] => none
  | c :: rest =>
    match to_digit c with
    | none => none
    | some d => some (parse_u64_go d rest)

/-- Mathematical value denoted by a digit run (no wrapping). -/
def digitsVal (ds : List Char) : Nat :=
  ds.foldl (fun n c => n * 10 + (c.toNat - 48)) 0

/-- Embedding of `StatCpu` (src/proc.rs): the nine cumulative tick counters of
one cpu (or of the aggregate `cpu` line). -/
structure StatCpu where
  user : Nat
  nice : Nat
  system : Nat
  idle : Nat
  iowait : Nat
  irq : Nat
  softirq : Nat
  steal : Nat
  guest : Nat
  deriving DecidableEq, Repr

/-- Zero or more ASCII digits dropped from the front (nom `digit0`, under the
redundant `opt!` of `parse_cpu_line`). -/
def dropDigits (input : List Char) : List Char :=
  match input with
  | [] => []
  | c :: rest => if c.isDigit then dropDigits rest else c :: rest

/-- Space or tab, the characters matched by nom `space0`. -/
def isSpaceChar (c : Char) : Bool := c = ' ' ∨ c = '\t'

/-- Zero or more spaces/tabs dropped from the front (nom `space0`). -/
def dropSpaces (input : List Char) : List Char :=
  match input with
  | [] => []
  | c :: rest => if isSpaceChar c then dropSpaces rest else c :: rest

/-- Embedding of `parse_cpu_line` (src/proc.rs): `tag!("cpu")`, an optional
digit run (the core index), then nine `parse_u64` fields separated by
`space0`.  Returns (remaining input, parsed counters); any trailing input
after the ninth field is left unconsumed. -/
def parse_cpu_line (input : List Char) : Option (List Char × StatCpu) := do
  match input with
  | 'c' :: 'p' :: 'u' :: r0 => do
    let r1 := dropSpaces (dropDigits r0)
    let (r2, user) ← parse_u64 r1
    let (r3, nice) ← parse_u64 (dropSpaces r2)
    let (r4, system) ← parse_u64 (dropSpaces r3)
    let (r5, idle) ← parse_u64 (dropSpaces r4)
    let (r6, iowait) ← parse_u64 (dropSpaces r5)
    let (r7, irq) ← parse_u64 (dropSpaces r6)
    let (r8, softirq) ← parse_u64 (dropSpaces r7)
    let (r9, steal) ← parse_u64 (dropSpaces r8)
    let (r10, guest) ← parse_u64 (dropSpaces r9)
    some (r10, StatCpu.mk user nice system idle iowait irq softirq steal guest)
  | _ => none

/-- Embedding of `StatCpu::from_str`: run `parse_cpu_line` and keep the value. -/
def StatCpu.from_str (input : List Char) : Option StatCpu :=
  (parse_cpu_line input).map (fun p => p.2)

/-- Embedding of `StatCpu::total` (src/proc.rs): chained `checked_add` over the
nine fields, `none` (panic) if any partial sum overflows `u64`. -/
def StatCpu.total (c : StatCpu) : Option Nat :=
  match checked_add c.user c.nice with
  | none => none
  | some s1 =>
    match checked_add s1 c.system with
    | none => none
    | some s2 =>
      match checked_add s2 c.idle with
      | none => none
      | some s3 =>
        match checked_add s3 c.iowait with
        | none => none
        | some s4 =>
          match checked_add s4 c.irq with
          | none => none
          | some s5 =>
            match checked_add s5 c.softirq with
            | none => none
            | some s6 =>
              match checked_add s6 c.steal with
              | none => none
              | some s7 => checked_add s7 c.guest

/-- Sum of the nine fields of a `StatCpu`, as an unbounded natural number. -/
def StatCpu.sumFields (c : StatCpu) : Nat :=
  c.user + c.nice + c.system + c.idle + c.iowait + c.irq + c.softirq + c.steal + c.guest

/-- Embedding of `impl ops::Sub for StatCpu` (src/proc.rs): field-wise
`checked_sub(..).unwrap()`, i.e. `none` (panic) as soon as any counter of
`rhs` exceeds the corresponding counter of `self`. -/
def StatCpu.sub (a b : StatCpu) : Option StatCpu := do
  let user ← checked_sub a.user b.user
  let nice ← checked_sub a.nice b.nice
  let system ← checked_sub a.system b.system
  let idle ← checked_sub a.idle b.idle
  let iowait ← checked_sub a.iowait b.iowait
  let irq ← checked_sub a.irq b.irq
  let softirq ← checked_sub a.softirq b.softirq
  let steal ← checked_sub a.steal b.steal
  let guest ← checked_sub a.guest b.guest
  some (StatCpu.mk user nice system idle iowait irq softirq steal guest)

/-- Embedding of `parse_single` (src/proc.rs): `tag!(name)`, `tag!(" ")`, then
`parse_u64`; trailing input after the number is ignored. -/
def parse_single (name : List Char) (input : List Char) : Option Nat :=
  if input.take name.length = name then
    match input.drop name.length with
    | ' ' :: rest => (parse_u64 rest).map (fun p => p.2)
    | _ => none
  else none

/-- Embedding of `Stat` (src/proc.rs): one parsed sample of `/proc/stat`. -/
structure Stat where
  cpu_totals : StatCpu
  cpus : List StatCpu
  context_switches : Nat
  boot_time : Nat
  processes : Nat
  procs_running : Nat
  procs_blocked : Nat
  deriving DecidableEq, Repr

/-- Embedding of `StatDelta` (src/proc.rs): the change between two samples.
`procs_running` / `procs_blocked` are signed (`i64`). -/
structure StatDelta where
  cpu_totals : StatCpu
  cpus : List StatCpu
  context_switches : Nat
  processes : Nat
  procs_running : Int
  procs_blocked : Int
  deriving DecidableEq, Repr

/-- Embedding of the helper `parse_line` (src/proc.rs): take the next line of
the iterator (`InvalidData` error if the iterator is exhausted) and apply the
mapper, failing if the mapper rejects the line. -/
def parse_line (lines : List (List Char)) (mapper : List Char → Option α) :
    Option (α × List (List Char)) :=
  match lines with
  | [] => none
  | l :: rest =>
    match mapper l with
    | some v => some (v, rest)
    | none => none

/-- Embedding of the `loop` in `Stat::from_iter`: pull lines while they parse
as `cpuN` counter lines (`none` if the iterator runs out first); the first
line that does not parse terminates the block and is skipped, not returned. -/
def read_cpus (lines : List (List Char)) : Option (List StatCpu × List (List Char)) :=
  match lines with
  | [] => none
  | l :: rest =>
    match StatCpu.from_str l with
    | some c =>
      match read_cpus rest with
      | some (cs, r) => some (c :: cs, r)
      | none => none
    | none => some ([], rest)

/-- Key literals looked for by `Stat::from_iter`. -/
def ctxtKey : List Char := ['c', 't', 'x', 't']

/-- Key literal for the boot-time line. -/
def btimeKey : List Char := ['b', 't', 'i', 'm', 'e']

/-- Key literal for the processes line. -/
def processesKey : List Char := ['p', 'r', 'o', 'c', 'e', 's', 's', 'e', 's']

/-- Key literal for the running-processes line. -/
def procsRunningKey : List Char := ['p', 'r', 'o', 'c', 's', '_', 'r', 'u', 'n', 'n', 'i', 'n', 'g']

/-- Key literal for the blocked-processes line. -/
def procsBlockedKey : List Char := ['p', 'r', 'o', 'c', 's', '_', 'b', 'l', 'o', 'c', 'k', 'e', 'd']

/-- Embedding of `Stat::from_iter` (src/proc.rs): first line is the aggregate
`cpu` line; then the `cpuN` block; the line that terminated the block is
skipped; then the five key lines must follow on consecutive lines, each
located by its leading literal key.  Any deviation yields `none`
(`io::ErrorKind::InvalidData`), never a partial `Stat`. -/
def from_iter (lines : List (List Char)) : Option Stat :=
  match parse_line lines StatCpu.from_str with
  | none => none
  | some (cpu_totals, r1) =>
    match read_cpus r1 with
    | none => none
    | some (cpus, r2) =>
      match parse_line r2 (parse_single ctxtKey) with
      | none => none
      | some (context_switches, r3) =>
        match parse_line r3 (parse_single btimeKey) with
        | none => none
        | some (boot_time, r4) =>
          match parse_line r4 (parse_single processesKey) with
          | none => none
          | some (processes, r5) =>
            match parse_line r5 (parse_single procsRunningKey) with
            | none => none
            | some (procs_running, r6) =>
              match parse_line r6 (parse_single procsBlockedKey) with
              | none => none
              | some (procs_blocked, _) =>
                some (Stat.mk cpu_totals cpus context_switches boot_time processes
                  procs_running procs_blocked)

/-- Position-wise subtraction of the two `cpus` vectors, as performed by the
`iter_mut().zip(..)` loop in `Stat::sub` (each element uses the panicking
`StatCpu` subtraction). -/
def subCpusList : List StatCpu → List StatCpu → Option (List StatCpu)
  | [], [] => some []
  | a :: as, b :: bs => do
    let c ← StatCpu.sub a b
    let cs ← subCpusList as bs
    some (c :: cs)
  | _, _ => none

/-- Embedding of `impl ops::Sub for Stat` (src/proc.rs, `rhs` by value):
`assert_eq!` on the cpu counts, checked per-core and aggregate subtraction,
checked `u64` subtraction for `context_switches` / `processes`, and signed
`i64` subtraction for the two gauges, guarded by a `panic!("overflow")` when
either operand exceeds `i64::MAX`.  `none` models every panic. -/
def Stat.sub (a b : Stat) : Option StatDelta := do
  if a.cpus.length ≠ b.cpus.length then none else do
  let cpus ← subCpusList a.cpus b.cpus
  let cpu_totals ← StatCpu.sub a.cpu_totals b.cpu_totals
  let context_switches ← checked_sub a.context_switches b.context_switches
  let processes ← checked_sub a.processes b.processes
  if i64MaxN < a.procs_running ∨ i64MaxN < b.procs_running then none else do
  let procs_running ← checked_sub_i64 (a.procs_running : Int) (b.procs_running : Int)
  if i64MaxN < a.procs_blocked ∨ i64MaxN < b.procs_blocked then none else do
  let procs_blocked ← checked_sub_i64 (a.procs_blocked : Int) (b.procs_blocked : Int)
  some (StatDelta.mk cpu_totals cpus context_switches processes procs_running procs_blocked)

/-- Embedding of `impl ops::Sub<&Stat> for Stat` (src/proc.rs, `rhs` by
reference): the body of the by-reference impl, translated separately; it
performs exactly the same steps as the by-value impl (the Rust bodies differ
only in `iter()` vs `into_iter()` and a dereference). -/
def Stat.subRef (a b : Stat) : Option StatDelta := do
  if a.cpus.length ≠ b.cpus.length then none else do
  let cpus ← subCpusList a.cpus b.cpus
  let cpu_totals ← StatCpu.sub a.cpu_totals b.cpu_totals
  let context_switches ← checked_sub a.context_switches b.context_switches
  let processes ← checked_sub a.processes b.processes
  if i64MaxN < a.procs_running ∨ i64MaxN < b.procs_running then none else do
  let procs_running ← checked_sub_i64 (a.procs_running : Int) (b.procs_running : Int)
  if i64MaxN < a.procs_blocked ∨ i64MaxN < b.procs_blocked then none else do
  let procs_blocked ← checked_sub_i64 (a.procs_blocked : Int) (b.procs_blocked : Int)
  some (StatDelta.mk cpu_totals cpus context_switches processes procs_running procs_blocked)

/-- Idealised `f64` value: exact rational when finite, a single absorbing
value for every non-finite result (NaN or ±∞).  In this code base the only
operation that can turn finite operands into a non-finite value is division
by zero. -/
inductive F64 where
  | nonfinite : F64
  | fin : ℚ → F64
  deriving DecidableEq

/-- Idealised `f64` division of two finite values: non-finite on a zero
denominator, exact quotient otherwise. -/
def fdiv (a b : ℚ) : F64 :=
  if b = 0 then F64.nonfinite else F64.fin (a / b)

/-- Idealised `f64` subtraction; any non-finite operand yields a non-finite
result. -/
def F64.sub : F64 → F64 → F64
  | F64.fin p, F64.fin q => F64.fin (p - q)
  | _, _ => F64.nonfinite

/-- Idealised `f64` addition; any non-finite operand yields a non-finite
result. -/
def F64.add : F64 → F64 → F64
  | F64.fin p, F64.fin q => F64.fin (p + q)
  | _, _ => F64.nonfinite

/-- Embedding of `CpuInstant` (src/lib.rs): a monotonic timestamp plus the
two pre-computed `f64` counters (`cpu_total`, `cpu_idle`) of that instant. -/
structure CpuInstant where
  instant : ℚ
  cpu_total : ℚ
  cpu_idle : ℚ
  deriving DecidableEq

/-- Embedding of `CpuDuration` (src/lib.rs). -/
structure CpuDuration where
  duration : ℚ
  cpu_total : ℚ
  cpu_idle : ℚ
  deriving DecidableEq

/-- Embedding of `impl ops::Sub for CpuInstant` (src/lib.rs): component-wise
subtraction, no checking. -/
def CpuInstant.sub (a b : CpuInstant) : CpuDuration :=
  CpuDuration.mk (a.instant - b.instant) (a.cpu_total - b.cpu_total) (a.cpu_idle - b.cpu_idle)

/-- Embedding of `CpuDuration::idle` (src/lib.rs): `cpu_idle / cpu_total`. -/
def CpuDuration.idle (d : CpuDuration) : F64 :=
  fdiv d.cpu_idle d.cpu_total

/-- Embedding of `CpuDuration::non_idle` (src/lib.rs): `1.0 - self.idle()`. -/
def CpuDuration.non_idle (d : CpuDuration) : F64 :=
  F64.sub (F64.fin 1) d.idle

/-- Embedding of `get_cpu_totals` (src/imp/linux.rs): the aggregate total (a
panicking checked sum, hence `Option`) and `idle + iowait`, both as `f64`. -/
def get_cpu_totals (s : Stat) : Option (ℚ × ℚ) :=
  (s.cpu_totals.total).map
    (fun t : Nat => ((t : ℚ), (s.cpu_totals.idle : ℚ) + (s.cpu_totals.iowait : ℚ)))

/-- Embedding of `CpuInstant::now` (src/lib.rs) applied to an already-parsed
`Stat` and the timestamp `t` captured at the same moment. -/
def CpuInstant.now (t : ℚ) (s : Stat) : Option CpuInstant :=
  (get_cpu_totals s).map (fun p => CpuInstant.mk t p.1 p.2)

/-- Modelled from the spec (§4.4): a `TimedSnapshot` pairs a monotonic
timestamp with a full counter `Snapshot`. -/
structure TimedSnapshotSpec where
  timestamp : ℚ
  snap : Stat

/-- Modelled from the spec (§4.4 with §4.2): `TimedSnapshot − TimedSnapshot`
bundles the wall-clock elapsed duration `newer.timestamp − older.timestamp`
with the counter `Delta` produced by the Delta Engine (checked field-wise
subtraction). -/
def timedDeltaSpec (newer older : TimedSnapshotSpec) : Option (ℚ × StatDelta) :=
  (Stat.sub newer.snap older.snap).map (fun d => (newer.timestamp - older.timestamp, d))

/-- Modelled from the spec (§4.3): the idle fraction of a `Delta`,
`(aggregate.idle + aggregate.iowait) / aggregate.total()`, defined when the
checked total is. -/
def idleFracSpec (d : StatDelta) : Option ℚ :=
  (d.cpu_totals.total).map
    (fun t => ((d.cpu_totals.idle : ℚ) + (d.cpu_totals.iowait : ℚ)) / (t : ℚ))

/-- Predicate for an input that does not start with an ASCII digit (it may be
empty). -/
def noLeadingDigit (l : List Char) : Prop :=
  ∀ c ∈ l.head?, c.isDigit = false

instance (l : List Char) : Decidable (noLeadingDigit l) := by
  unfold noLeadingDigit
  infer_instance

/-- Accumulating a digit run modulo `2 ^ 64` step by step agrees with reducing
only at the end: the fold is congruent modulo `u64Mod`. -/
theorem foldl_digits_mod_congr (ds : List Char) :
    ∀ a b : Nat, a % u64Mod = b % u64Mod →
      (ds.foldl (fun n c => n * 10 + (c.toNat - 48)) a) % u64Mod
        = (ds.foldl (fun n c => n * 10 + (c.toNat - 48)) b) % u64Mod := by
  induction ds with
  | nil => intro a b h; simpa using h
  | cons c ds ih =>
    intro a b h
    simp only [List.foldl_cons]
    exact ih _ _ ((Nat.ModEq.add_right _ (Nat.ModEq.mul_right 10 h)))

/-- Behaviour of the accumulation loop on a digit run followed by a non-digit
remainder: it consumes exactly the run and wraps the accumulated value. -/
theorem parse_u64_go_eq (ds : List Char) :
    ∀ (num : Nat) (rest : List Char), num < u64Mod →
      (∀ c ∈ ds, c.isDigit = true) → noLeadingDigit rest →
      parse_u64_go num (ds ++ rest)
        = (rest, (ds.foldl (fun n c => n * 10 + (c.toNat - 48)) num) % u64Mod) := by
  induction ds with
  | nil =>
    intro num rest hnum _ hrest
    have hmod : num % u64Mod = num := Nat.mod_eq_of_lt hnum
    cases rest with
    | nil => simp [parse_u64_go, hmod]
    | cons c r =>
      have hc : c.isDigit = false := hrest c (by simp)
      simp [parse_u64_go, to_digit, hc, hmod]
  | cons d ds ih =>
    intro num rest hnum hds hrest
    have hd : d.isDigit = true := hds d (by simp)
    have hstep : (num * 10 + (d.toNat - 48)) % u64Mod < u64Mod :=
      Nat.mod_lt _ (by norm_num [u64Mod])
    have hds2 : ∀ c ∈ ds, c.isDigit = true := fun c hc => hds c (by simp [hc])
    calc parse_u64_go num ((d :: ds) ++ rest)
        = parse_u64_go ((num * 10 + (d.toNat - 48)) % u64Mod) (ds ++ rest) := by
          simp [parse_u64_go, to_digit, hd]
      _ = (rest, (ds.foldl (fun n c => n * 10 + (c.toNat - 48))
              ((num * 10 + (d.toNat - 48)) % u64Mod)) % u64Mod) :=
          ih _ rest hstep hds2 hrest
      _ = (rest, ((d :: ds).foldl (fun n c => n * 10 + (c.toNat - 48)) num) % u64Mod) := by
          simp only [List.foldl_cons]
          rw [foldl_digits_mod_congr ds _ _ (Nat.mod_mod_of_dvd _ dvd_rfl)]

/-- Behaviour of `parse_u64` on a non-empty digit run followed by a non-digit
remainder: success, the remainder untouched, the value wrapped to 64 bits. -/
theorem parse_u64_eq (ds rest : List Char) (hne : ds ≠ [])
    (hds : ∀ c ∈ ds, c.isDigit = true) (hrest : noLeadingDigit rest) :
    parse_u64 (ds ++ rest) = some (rest, digitsVal ds % u64Mod) := by
  cases ds with
  | nil => exact absurd rfl hne
  | cons d ds =>
    have hd : d.isDigit = true := hds d (by simp)
    have hdv : d.toNat - 48 < u64Mod := by
      have h9 : d.toNat ≤ 57 := by
        simp only [Char.isDigit, Bool.and_eq_true, decide_eq_true_eq] at hd
        obtain ⟨h1, h2⟩ := hd
        simp only [Char.le_def, Char.toNat] at h2 ⊢
        exact h2
      have hm : (57 : Nat) < u64Mod := by norm_num [u64Mod]
      omega
    have hds2 : ∀ c ∈ ds, c.isDigit = true := fun c hc => hds c (by simp [hc])
    have hgo := parse_u64_go_eq ds (d.toNat - 48) rest hdv hds2 hrest
    simp only [List.cons_append, parse_u64, to_digit, hd, if_true, hgo]
    simp [digitsVal]

/-- C6: the numeric tokenizer `parse_u64` consumes the maximal leading run of
ASCII decimal digits and returns its (64-bit accumulated) value together with
the unconsumed remainder, fails when the input does not begin with a digit,
and in particular parses `"12 "` to `12` leaving the space, `"12"` to `12`
with an empty remainder, and fails on `"a123"`. -/
theorem parse_u64_maximal_munch :
    (∀ ds rest, ds ≠ [] → (∀ c ∈ ds, c.isDigit = true) → noLeadingDigit rest →
        parse_u64 (ds ++ rest) = some (rest, digitsVal ds % u64Mod)) ∧
    (∀ c rest, c.isDigit = false → parse_u64 (c :: rest) = none) ∧
    parse_u64 [] = none ∧
    parse_u64 (("12 ").toList) = some ((" ").toList, 12) ∧
    parse_u64 (("12").toList) = some ([], 12) ∧
    parse_u64 (("a123").toList) = none := by
  refine ⟨parse_u64_eq, ?_, rfl, by decide, by decide, by decide⟩
  intro c rest h
  simp [parse_u64, to_digit, h]

/-- Witness for C6 at the concrete input `"12 "`. -/
theorem parse_u64_maximal_munch_w :
    parse_u64 (['1', '2'] ++ [' ']) = some ([' '], digitsVal ['1', '2'] % u64Mod) :=
  parse_u64_maximal_munch.1 ['1', '2'] [' '] (by decide) (by decide) (by decide)

/-- C10: `parse_u64` accumulates digits with wrapping 64-bit arithmetic, so a
digit run denoting a value of `2 ^ 64` or more still parses successfully,
yielding the value reduced modulo `2 ^ 64` (which differs from the denoted
value) instead of an out-of-range error. -/
theorem parse_u64_wraps (ds rest : List Char) (hne : ds ≠ [])
    (hds : ∀ c ∈ ds, c.isDigit = true) (hrest : noLeadingDigit rest)
    (hbig : u64Mod ≤ digitsVal ds) :
    parse_u64 (ds ++ rest) = some (rest, digitsVal ds % u64Mod) ∧
      digitsVal ds % u64Mod ≠ digitsVal ds := by
  refine ⟨parse_u64_eq ds rest hne hds hrest, ?_⟩
  have h1 : digitsVal ds % u64Mod < u64Mod := Nat.mod_lt _ (by norm_num [u64Mod])
  omega

/-- Witness for C10 at the concrete input `"18446744073709551616"` (the decimal
spelling of `2 ^ 64`, which wraps to `0`). -/
theorem parse_u64_wraps_w :
    parse_u64 ((("18446744073709551616").toList) ++ []) =
        some ([], digitsVal (("18446744073709551616").toList) % u64Mod) ∧
      digitsVal (("18446744073709551616").toList) % u64Mod ≠
        digitsVal (("18446744073709551616").toList) :=
  parse_u64_wraps (("18446744073709551616").toList) [] (by decide) (by decide)
    (by decide) (by decide)

/-- Literal `/proc/stat` counter table of spec §8 (the in-tree test fixture):
aggregate line, four `cpuN` lines, an `intr` line, the five key lines, and a
trailing `softirq` line. -/
def sampleLines : List (List Char) :=
  [ ("cpu  17501 2 6293 8212469 20141 1955 805 0 0 0").toList
  , ("cpu0 4713 0 1720 2049410 8036 260 255 0 0 0").toList
  , ("cpu1 3866 0 1325 2054893 3673 928 307 0 0 0").toList
  , ("cpu2 4966 1 1988 2051243 5596 516 141 0 0 0").toList
  , ("cpu3 3955 0 1258 2056922 2835 250 100 0 0 0").toList
  , ("intr 1015182 8 8252 0 0 0 0 0 0 1 113449 0 0 198907 0 0 0 18494 0 0 1 0 0 0 29 22 7171 46413 13 0 413 167 528").toList
  , ("ctxt 2238717").toList
  , ("btime 1535128607").toList
  , ("processes 2453").toList
  , ("procs_running 1").toList
  , ("procs_blocked 0").toList
  , ("softirq 4257581 64 299604 69 2986 36581 0 3497229 283111 0 137937").toList ]

/-- C5: parsing the literal counter table of spec §8 succeeds and yields
`aggregate.user = 17501`, `aggregate.idle = 8212469`, four per-core entries,
`context_switches = 2238717` and `processes = 2453`. -/
theorem sample_table_roundtrip :
    (from_iter sampleLines).map
        (fun st => (st.cpu_totals.user, st.cpu_totals.idle, st.cpus.length,
          st.context_switches, st.processes))
      = some (17501, 8212469, 4, 2238717, 2453) := by
  decide

/-- Counter table in which every key line is present and well-formed, but one
unrelated line (`foo 1`) stands between the skipped terminator (`intr`) line
and the `ctxt` line. -/
def strayLines : List (List Char) :=
  [ ("cpu 1 2 3 4 5 6 7 8 9").toList
  , ("cpu0 1 2 3 4 5 6 7 8 9").toList
  , ("intr 7 0 0").toList
  , ("foo 1").toList
  , ("ctxt 4").toList
  , ("btime 3").toList
  , ("processes 2").toList
  , ("procs_running 1").toList
  , ("procs_blocked 0").toList ]

/-- Counterexample to C2: all five keys appear (each on its own well-formed
line) with a single unrelated line intervening after the terminator, yet
`Stat::from_iter` fails — the parser does not locate keys across intervening
unrelated lines. -/
theorem stray_line_defeats_key_search :
    from_iter strayLines = none ∧
      ("ctxt 4").toList ∈ strayLines ∧
      ("btime 3").toList ∈ strayLines ∧
      ("processes 2").toList ∈ strayLines ∧
      ("procs_running 1").toList ∈ strayLines ∧
      ("procs_blocked 0").toList ∈ strayLines ∧
      (parse_single ctxtKey (("ctxt 4").toList)).isSome = true ∧
      (parse_single btimeKey (("btime 3").toList)).isSome = true ∧
      (parse_single processesKey (("processes 2").toList)).isSome = true ∧
      (parse_single procsRunningKey (("procs_running 1").toList)).isSome = true ∧
      (parse_single procsBlockedKey (("procs_blocked 0").toList)).isSome = true := by
  decide

/-- C2 (amended): after the per-core block, the first non-`cpu` line is
skipped (never consumed into `per_core`); parsing then succeeds exactly when
the five keys `ctxt`, `btime`, `processes`, `procs_running`, `procs_blocked`
head the next five consecutive lines, in that order — any missing or
malformed line among these five positions (including an intervening unrelated
line) makes the whole parse fail, and no partial `Stat` is returned. -/
theorem keys_on_consecutive_lines (l0 : List Char) (rest : List (List Char))
    (tot : StatCpu) (cpus : List StatCpu) (r2 : List (List Char))
    (h0 : StatCpu.from_str l0 = some tot)
    (h1 : read_cpus rest = some (cpus, r2)) :
    (from_iter (l0 :: rest)).isSome = true ↔
      ∃ lc lb lp lr lq r3, r2 = lc :: lb :: lp :: lr :: lq :: r3 ∧
        (parse_single ctxtKey lc).isSome = true ∧
        (parse_single btimeKey lb).isSome = true ∧
        (parse_single processesKey lp).isSome = true ∧
        (parse_single procsRunningKey lr).isSome = true ∧
        (parse_single procsBlockedKey lq).isSome = true := by
  have hp0 : parse_line (l0 :: rest) StatCpu.from_str = some (tot, rest) := by
    simp [parse_line, h0]
  simp only [from_iter, hp0, h1]
  rcases r2 with _ | ⟨lc, r2⟩
  · simp [parse_line]
  cases hc : parse_single ctxtKey lc with
  | none =>
    simp [parse_line, hc]
    try (intros; subst_vars; simp_all)
  | some vc =>
  rcases r2 with _ | ⟨lb, r2⟩
  · simp [parse_line, hc]
    try (intros; subst_vars; simp_all)
  cases hb : parse_single btimeKey lb with
  | none =>
    simp [parse_line, hc, hb]
    try (intros; subst_vars; simp_all)
  | some vb =>
  rcases r2 with _ | ⟨lp, r2⟩
  · simp [parse_line, hc, hb]
    try (intros; subst_vars; simp_all)
  cases hp : parse_single processesKey lp with
  | none =>
    simp [parse_line, hc, hb, hp]
    try (intros; subst_vars; simp_all)
  | some vp =>
  rcases r2 with _ | ⟨lr, r2⟩
  · simp [parse_line, hc, hb, hp]
    try (intros; subst_vars; simp_all)
  cases hr : parse_single procsRunningKey lr with
  | none =>
    simp [parse_line, hc, hb, hp, hr]
    try (intros; subst_vars; simp_all)
  | some vr =>
  rcases r2 with _ | ⟨lq, r2⟩
  · simp [parse_line, hc, hb, hp, hr]
    try (intros; subst_vars; simp_all)
  cases hq : parse_single procsBlockedKey lq with
  | none =>
    simp [parse_line, hc, hb, hp, hr, hq]
    try (intros; subst_vars; simp_all)
  | some vq =>
    simp [parse_line, hc, hb, hp, hr, hq]
    try (intros; subst_vars; simp_all)
    try exact ⟨lc, lb, lp, lr, lq, ⟨rfl, rfl, rfl, rfl, rfl⟩,
      by simp [hc], by simp [hb], by simp [hp], by simp [hr], by simp [hq]⟩

/-- Witness for C2 (amended) on a concrete table whose five key lines directly
follow the skipped `intr` terminator. -/
theorem keys_on_consecutive_lines_w :
    (from_iter
        [ ("cpu 1 2 3 4 5 6 7 8 9").toList
        , ("intr 7 0 0").toList
        , ("ctxt 4").toList
        , ("btime 3").toList
        , ("processes 2").toList
        , ("procs_running 1").toList
        , ("procs_blocked 0").toList ]).isSome = true := by
  refine (keys_on_consecutive_lines (("cpu 1 2 3 4 5 6 7 8 9").toList)
      [ ("intr 7 0 0").toList
      , ("ctxt 4").toList
      , ("btime 3").toList
      , ("processes 2").toList
      , ("procs_running 1").toList
      , ("procs_blocked 0").toList ]
      (StatCpu.mk 1 2 3 4 5 6 7 8 9) []
      [ ("ctxt 4").toList
      , ("btime 3").toList
      , ("processes 2").toList
      , ("procs_running 1").toList
      , ("procs_blocked 0").toList ]
      (by decide) (by decide)).mpr ?_
  exact ⟨_, _, _, _, _, [], rfl, by decide, by decide, by decide, by decide, by decide⟩

/-- Fields of `n` that are smaller than the corresponding field of `o`: the
condition under which the checked field-wise subtraction `n - o` panics. -/
def cpuDecreased (n o : StatCpu) : Prop :=
  n.user < o.user ∨ n.nice < o.nice ∨ n.system < o.system ∨ n.idle < o.idle ∨
    n.iowait < o.iowait ∨ n.irq < o.irq ∨ n.softirq < o.softirq ∨
    n.steal < o.steal ∨ n.guest < o.guest

instance (n o : StatCpu) : Decidable (cpuDecreased n o) := by
  unfold cpuDecreased
  infer_instance

/-- Characterization of the panicking `StatCpu` subtraction: it fails exactly
when some counter decreased, and otherwise yields the field-wise difference. -/
theorem cpu_sub_eq (a b : StatCpu) :
    StatCpu.sub a b = if cpuDecreased a b then none
      else some (StatCpu.mk (a.user - b.user) (a.nice - b.nice) (a.system - b.system)
        (a.idle - b.idle) (a.iowait - b.iowait) (a.irq - b.irq) (a.softirq - b.softirq)
        (a.steal - b.steal) (a.guest - b.guest)) := by
  by_cases h1 : b.user ≤ a.user
  case neg =>
    have hd : cpuDecreased a b := Or.inl (Nat.not_le.mp h1)
    simp [StatCpu.sub, checked_sub, h1, hd]
  by_cases h2 : b.nice ≤ a.nice
  case neg =>
    have hd : cpuDecreased a b := Or.inr (Or.inl (Nat.not_le.mp h2))
    simp [StatCpu.sub, checked_sub, h1, h2, hd]
  by_cases h3 : b.system ≤ a.system
  case neg =>
    have hd : cpuDecreased a b := Or.inr (Or.inr (Or.inl (Nat.not_le.mp h3)))
    simp [StatCpu.sub, checked_sub, h1, h2, h3, hd]
  by_cases h4 : b.idle ≤ a.idle
  case neg =>
    have hd : cpuDecreased a b := Or.inr (Or.inr (Or.inr (Or.inl (Nat.not_le.mp h4))))
    simp [StatCpu.sub, checked_sub, h1, h2, h3, h4, hd]
  by_cases h5 : b.iowait ≤ a.iowait
  case neg =>
    have hd : cpuDecreased a b :=
      Or.inr (Or.inr (Or.inr (Or.inr (Or.inl (Nat.not_le.mp h5)))))
    simp [StatCpu.sub, checked_sub, h1, h2, h3, h4, h5, hd]
  by_cases h6 : b.irq ≤ a.irq
  case neg =>
    have hd : cpuDecreased a b :=
      Or.inr (Or.inr (Or.inr (Or.inr (Or.inr (Or.inl (Nat.not_le.mp h6))))))
    simp [StatCpu.sub, checked_sub, h1, h2, h3, h4, h5, h6, hd]
  by_cases h7 : b.softirq ≤ a.softirq
  case neg =>
    have hd : cpuDecreased a b :=
      Or.inr (Or.inr (Or.inr (Or.inr (Or.inr (Or.inr (Or.inl (Nat.not_le.mp h7)))))))
    simp [StatCpu.sub, checked_sub, h1, h2, h3, h4, h5, h6, h7, hd]
  by_cases h8 : b.steal ≤ a.steal
  case neg =>
    have hd : cpuDecreased a b :=
      Or.inr (Or.inr (Or.inr (Or.inr (Or.inr (Or.inr (Or.inr (Or.inl (Nat.not_le.mp h8))))))))
    simp [StatCpu.sub, checked_sub, h1, h2, h3, h4, h5, h6, h7, h8, hd]
  by_cases h9 : b.guest ≤ a.guest
  case neg =>
    have hd : cpuDecreased a b :=
      Or.inr (Or.inr (Or.inr (Or.inr (Or.inr (Or.inr (Or.inr (Or.inr (Nat.not_le.mp h9))))))))
    simp [StatCpu.sub, checked_sub, h1, h2, h3, h4, h5, h6, h7, h8, h9, hd]
  have hd : ¬ cpuDecreased a b := by
    simp only [cpuDecreased, not_or, Nat.not_lt]
    omega
  simp [StatCpu.sub, checked_sub, h1, h2, h3, h4, h5, h6, h7, h8, h9, hd]

/-- The nine-field checked subtraction fails exactly when a counter decreased. -/
theorem cpu_sub_none_iff (a b : StatCpu) : StatCpu.sub a b = none ↔ cpuDecreased a b := by
  rw [cpu_sub_eq]
  split_ifs with h <;> simp [h]

/-- `checked_sub` fails exactly on underflow. -/
theorem checked_sub_none_iff (x y : Nat) : checked_sub x y = none ↔ x < y := by
  unfold checked_sub
  split_ifs with h <;> simp <;> omega

/-- The signed gauge subtraction never fails once both operands are within
`i64` range. -/
theorem checked_sub_i64_eq_some (x y : Nat) (hx : x ≤ i64MaxN) (hy : y ≤ i64MaxN) :
    checked_sub_i64 (x : Int) (y : Int) = some ((x : Int) - (y : Int)) := by
  unfold checked_sub_i64
  rw [if_pos]
  unfold i64MaxN at hx hy
  constructor <;> omega

/-- The per-core zip subtraction of two equal-length vectors fails exactly
when some position-aligned pair has a decreased counter. -/
theorem subCpusList_none_iff (as : List StatCpu) :
    ∀ bs : List StatCpu, as.length = bs.length →
      (subCpusList as bs = none ↔ ∃ p ∈ as.zip bs, cpuDecreased p.1 p.2) := by
  induction as with
  | nil =>
    intro bs h
    cases bs with
    | nil => simp [subCpusList]
    | cons b bs => simp at h
  | cons a as ih =>
    intro bs h
    cases bs with
    | nil => simp at h
    | cons b bs =>
      have h2 : as.length = bs.length := by simpa using h
      by_cases hd : cpuDecreased a b
      · have : StatCpu.sub a b = none := (cpu_sub_none_iff a b).mpr hd
        simp only [subCpusList, this]
        simp [hd]
      · have hsome : StatCpu.sub a b ≠ none := fun hn => hd ((cpu_sub_none_iff a b).mp hn)
        obtain ⟨d, hdq⟩ := Option.ne_none_iff_exists'.mp hsome
        simp only [subCpusList, hdq]
        cases hrest : subCpusList as bs with
        | none =>
          have := (ih bs h2).mp hrest
          simp [hrest, hd]
          obtain ⟨p, hp, hpd⟩ := this
          exact ⟨p.1, p.2, hp, hpd⟩
        | some cs =>
          have hno := (ih bs h2).not.mp (by simp [hrest])
          simp [hrest, hd]
          intro x y hxy
          exact fun hc => hno ⟨(x, y), hxy, hc⟩

/-- Some cumulative counter (a field of the aggregate, a field of a
position-aligned per-core pair, `context_switches`, or `processes`) is
smaller in the newer snapshot `a` than in the older snapshot `b`. -/
def cumulativeDecreased (a b : Stat) : Prop :=
  cpuDecreased a.cpu_totals b.cpu_totals ∨
    (∃ p ∈ a.cpus.zip b.cpus, cpuDecreased p.1 p.2) ∨
    a.context_switches < b.context_switches ∨
    a.processes < b.processes

instance (a b : Stat) : Decidable (cumulativeDecreased a b) := by
  unfold cumulativeDecreased
  infer_instance

/-- One of the `procs_running` / `procs_blocked` gauges of either snapshot
exceeds `i64::MAX`, triggering the explicit `panic!("overflow")` guards of
`Stat::sub`. -/
def gaugeOutOfRange (a b : Stat) : Prop :=
  i64MaxN < a.procs_running ∨ i64MaxN < b.procs_running ∨
    i64MaxN < a.procs_blocked ∨ i64MaxN < b.procs_blocked

instance (a b : Stat) : Decidable (gaugeOutOfRange a b) := by
  unfold gaugeOutOfRange
  infer_instance

/-- C3 (amended): `Stat` subtraction fails (aborts via panic, modelled as
`none` — never clamping or truncating) if and only if the per-core sequences
have different lengths, or some cumulative counter (aggregate field,
position-aligned per-core field, `context_switches`, or `processes`) is
smaller in the newer snapshot, or one of the `procs_running`/`procs_blocked`
gauges of either snapshot exceeds `i64::MAX`; within `i64` range the gauges
are subtracted as signed 64-bit values and a decrease in them never causes
failure. -/
theorem stat_sub_none_iff (a b : Stat) :
    Stat.sub a b = none ↔
      a.cpus.length ≠ b.cpus.length ∨ cumulativeDecreased a b ∨ gaugeOutOfRange a b := by
  by_cases hlen : a.cpus.length = b.cpus.length
  case neg => simp [Stat.sub, hlen]
  cases hcl : subCpusList a.cpus b.cpus with
  | none =>
    have hex := (subCpusList_none_iff a.cpus b.cpus hlen).mp hcl
    simp [Stat.sub, hlen, hcl, cumulativeDecreased, hex]
  | some cpusd =>
    have hnex : ¬ ∃ p ∈ a.cpus.zip b.cpus, cpuDecreased p.1 p.2 :=
      (subCpusList_none_iff a.cpus b.cpus hlen).not.mp (by simp [hcl])
    cases hct : StatCpu.sub a.cpu_totals b.cpu_totals with
    | none =>
      have hdec := (cpu_sub_none_iff _ _).mp hct
      simp [Stat.sub, hlen, hcl, hct, cumulativeDecreased, hdec]
    | some totd =>
      have hndec : ¬ cpuDecreased a.cpu_totals b.cpu_totals := by
        intro h
        rw [(cpu_sub_none_iff _ _).mpr h] at hct
        exact Option.noConfusion hct
      by_cases hcs : a.context_switches < b.context_switches
      · have h1 : checked_sub a.context_switches b.context_switches = none :=
          (checked_sub_none_iff _ _).mpr hcs
        simp [Stat.sub, hlen, hcl, hct, h1, cumulativeDecreased, hcs]
      · have h1 : checked_sub a.context_switches b.context_switches
            = some (a.context_switches - b.context_switches) := by
          unfold checked_sub
          rw [if_pos (by omega)]
        by_cases hpc : a.processes < b.processes
        · have h2 : checked_sub a.processes b.processes = none :=
            (checked_sub_none_iff _ _).mpr hpc
          simp [Stat.sub, hlen, hcl, hct, h1, h2, cumulativeDecreased, hpc]
        · have h2 : checked_sub a.processes b.processes
              = some (a.processes - b.processes) := by
            unfold checked_sub
            rw [if_pos (by omega)]
          by_cases hg1 : i64MaxN < a.procs_running ∨ i64MaxN < b.procs_running
          · simp [Stat.sub, hlen, hcl, hct, h1, h2, hg1, gaugeOutOfRange]
            tauto
          · have hx1 : a.procs_running ≤ i64MaxN := by omega
            have hy1 : b.procs_running ≤ i64MaxN := by omega
            have hi1 := checked_sub_i64_eq_some a.procs_running b.procs_running hx1 hy1
            by_cases hg2 : i64MaxN < a.procs_blocked ∨ i64MaxN < b.procs_blocked
            · simp [Stat.sub, hlen, hcl, hct, h1, h2, hg1, hg2, hi1, gaugeOutOfRange]
              try tauto
            · have hx2 : a.procs_blocked ≤ i64MaxN := by omega
              have hy2 : b.procs_blocked ≤ i64MaxN := by omega
              have hi2 := checked_sub_i64_eq_some a.procs_blocked b.procs_blocked hx2 hy2
              simp [Stat.sub, hlen, hcl, hct, h1, h2, hg1, hg2, hi1, hi2,
                cumulativeDecreased, gaugeOutOfRange, hnex, hndec, hcs, hpc]
              try (intro x y hxy; exact fun hc => hnex ⟨(x, y), hxy, hc⟩)


/-- Characterization of the checked nine-field sum: defined (with the exact
mathematical sum as value) precisely when that sum fits in a `u64`. -/
theorem total_eq (c : StatCpu) :
    c.total = if c.sumFields < u64Mod then some c.sumFields else none := by
  by_cases k1 : c.user + c.nice < u64Mod
  case neg =>
    have hs : ¬ c.sumFields < u64Mod := by simp only [StatCpu.sumFields]; omega
    simp [StatCpu.total, checked_add, k1, hs]
  by_cases k2 : c.user + c.nice + c.system < u64Mod
  case neg =>
    have hs : ¬ c.sumFields < u64Mod := by simp only [StatCpu.sumFields]; omega
    simp [StatCpu.total, checked_add, k1, k2, hs]
  by_cases k3 : c.user + c.nice + c.system + c.idle < u64Mod
  case neg =>
    have hs : ¬ c.sumFields < u64Mod := by simp only [StatCpu.sumFields]; omega
    simp [StatCpu.total, checked_add, k1, k2, k3, hs]
  by_cases k4 : c.user + c.nice + c.system + c.idle + c.iowait < u64Mod
  case neg =>
    have hs : ¬ c.sumFields < u64Mod := by simp only [StatCpu.sumFields]; omega
    simp [StatCpu.total, checked_add, k1, k2, k3, k4, hs]
  by_cases k5 : c.user + c.nice + c.system + c.idle + c.iowait + c.irq < u64Mod
  case neg =>
    have hs : ¬ c.sumFields < u64Mod := by simp only [StatCpu.sumFields]; omega
    simp [StatCpu.total, checked_add, k1, k2, k3, k4, k5, hs]
  by_cases k6 : c.user + c.nice + c.system + c.idle + c.iowait + c.irq + c.softirq < u64Mod
  case neg =>
    have hs : ¬ c.sumFields < u64Mod := by simp only [StatCpu.sumFields]; omega
    simp [StatCpu.total, checked_add, k1, k2, k3, k4, k5, k6, hs]
  by_cases k7 :
      c.user + c.nice + c.system + c.idle + c.iowait + c.irq + c.softirq + c.steal < u64Mod
  case neg =>
    have hs : ¬ c.sumFields < u64Mod := by simp only [StatCpu.sumFields]; omega
    simp [StatCpu.total, checked_add, k1, k2, k3, k4, k5, k6, k7, hs]
  by_cases k8 : c.user + c.nice + c.system + c.idle + c.iowait + c.irq + c.softirq + c.steal
      + c.guest < u64Mod
  case neg =>
    have hs : ¬ c.sumFields < u64Mod := by simp only [StatCpu.sumFields]; omega
    simp [StatCpu.total, checked_add, k1, k2, k3, k4, k5, k6, k7, k8, hs]
  have hs : c.sumFields < u64Mod := by simp only [StatCpu.sumFields]; omega
  simp [StatCpu.total, checked_add, StatCpu.sumFields, k1, k2, k3, k4, k5, k6, k7, k8, hs]

/-- C7: `StatCpu::total` returns exactly the mathematical sum of its nine
fields whenever that sum is at most `u64::MAX`, and fails (panics) rather
than silently wrapping when the sum would overflow; consequently the
aggregate of any `Delta` obtained by snapshot subtraction has
`total() = sum of its nine fields` (whenever defined). -/
theorem total_is_checked_sum :
    (∀ c : StatCpu, c.sumFields ≤ u64Max → c.total = some c.sumFields) ∧
    (∀ c : StatCpu, u64Max < c.sumFields → c.total = none) ∧
    (∀ (a b : Stat) (d : StatDelta), Stat.sub a b = some d →
      d.cpu_totals.sumFields ≤ u64Max → d.cpu_totals.total = some d.cpu_totals.sumFields) := by
  refine ⟨?_, ?_, ?_⟩
  · intro c h
    rw [total_eq, if_pos]
    unfold u64Max u64Mod at *
    omega
  · intro c h
    rw [total_eq, if_neg]
    unfold u64Max u64Mod at *
    omega
  · intro a b d hsub h
    rw [total_eq, if_pos]
    unfold u64Max u64Mod at *
    omega

/-- Witness for C7: the checked sum on a small, a saturated, and a
subtraction-derived concrete `StatCpu`. -/
theorem total_is_checked_sum_w :
    (StatCpu.mk 1 2 3 4 5 6 7 8 9).total = some ((StatCpu.mk 1 2 3 4 5 6 7 8 9).sumFields) ∧
      (StatCpu.mk u64Max 1 0 0 0 0 0 0 0).total = none ∧
      (StatDelta.mk (StatCpu.mk 1 1 1 1 1 1 1 1 1) [] 1 1 1 1).cpu_totals.total
        = some ((StatCpu.mk 1 1 1 1 1 1 1 1 1).sumFields) := by
  refine ⟨total_is_checked_sum.1 _ (by decide), total_is_checked_sum.2.1 _ (by decide), ?_⟩
  exact total_is_checked_sum.2.2
    (Stat.mk (StatCpu.mk 2 2 2 2 2 2 2 2 2) [] 3 3 3 3 3)
    (Stat.mk (StatCpu.mk 1 1 1 1 1 1 1 1 1) [] 2 2 2 2 2)
    (StatDelta.mk (StatCpu.mk 1 1 1 1 1 1 1 1 1) [] 1 1 1 1)
    (by decide) (by decide)

/-- Counterexample to C3: two identical snapshots (equal core counts, no
cumulative counter decreased anywhere) whose `procs_running` gauge equals
`2 ^ 63 > i64::MAX`.  The claimed "if and only if" fails: subtraction still
panics (yields `none`) because of the `i64` conversion guard. -/
theorem gauge_overflow_cex :
    Stat.sub (Stat.mk (StatCpu.mk 1 1 1 1 1 1 1 1 1) [] 5 5 5 (2 ^ 63) 0)
        (Stat.mk (StatCpu.mk 1 1 1 1 1 1 1 1 1) [] 5 5 5 (2 ^ 63) 0) = none ∧
      (Stat.mk (StatCpu.mk 1 1 1 1 1 1 1 1 1) [] 5 5 5 (2 ^ 63) 0).cpus.length
        = (Stat.mk (StatCpu.mk 1 1 1 1 1 1 1 1 1) [] 5 5 5 (2 ^ 63) 0).cpus.length ∧
      ¬ cumulativeDecreased
          (Stat.mk (StatCpu.mk 1 1 1 1 1 1 1 1 1) [] 5 5 5 (2 ^ 63) 0)
          (Stat.mk (StatCpu.mk 1 1 1 1 1 1 1 1 1) [] 5 5 5 (2 ^ 63) 0) := by
  refine ⟨by decide, rfl, by decide⟩

/-- The all-zero counter record. -/
def zeroCpu : StatCpu := StatCpu.mk 0 0 0 0 0 0 0 0 0

/-- Subtracting a counter record from itself yields all zeros. -/
theorem cpu_sub_self (c : StatCpu) : StatCpu.sub c c = some zeroCpu := by
  rw [cpu_sub_eq, if_neg]
  · simp [zeroCpu]
  · simp [cpuDecreased]

/-- Subtracting a per-core vector from itself yields all-zero records. -/
theorem subCpusList_self (cs : List StatCpu) :
    subCpusList cs cs = some (cs.map (fun _ => zeroCpu)) := by
  induction cs with
  | nil => simp [subCpusList]
  | cons c cs ih => simp [subCpusList, cpu_sub_self, ih]

/-- C9 (amended): differencing a snapshot against an identical copy of itself
succeeds — provided its `procs_running`/`procs_blocked` gauges do not exceed
`i64::MAX` — and yields a delta whose aggregate and per-core entries are all
zero and whose counters and gauges are all zero. -/
theorem self_sub_zero (s : Stat) (h1 : s.procs_running ≤ i64MaxN)
    (h2 : s.procs_blocked ≤ i64MaxN) :
    Stat.sub s s = some (StatDelta.mk zeroCpu (s.cpus.map (fun _ => zeroCpu)) 0 0 0 0) := by
  have hcs : checked_sub s.context_switches s.context_switches = some 0 := by
    unfold checked_sub
    simp
  have hp : checked_sub s.processes s.processes = some 0 := by
    unfold checked_sub
    simp
  have hi1 : checked_sub_i64 (s.procs_running : Int) (s.procs_running : Int) = some 0 := by
    rw [checked_sub_i64_eq_some _ _ h1 h1]
    simp
  have hi2 : checked_sub_i64 (s.procs_blocked : Int) (s.procs_blocked : Int) = some 0 := by
    rw [checked_sub_i64_eq_some _ _ h2 h2]
    simp
  have hg1 : ¬ (i64MaxN < s.procs_running ∨ i64MaxN < s.procs_running) := by omega
  have hg2 : ¬ (i64MaxN < s.procs_blocked ∨ i64MaxN < s.procs_blocked) := by omega
  simp [Stat.sub, subCpusList_self, cpu_sub_self, hcs, hp, hi1, hi2, hg1, hg2]
  exact ⟨h1, h2⟩

/-- Witness for C9 (amended) on a concrete one-core snapshot. -/
theorem self_sub_zero_w :
    Stat.sub (Stat.mk (StatCpu.mk 1 2 3 4 5 6 7 8 9) [StatCpu.mk 1 1 1 1 1 1 1 1 1] 7 8 9 1 2)
        (Stat.mk (StatCpu.mk 1 2 3 4 5 6 7 8 9) [StatCpu.mk 1 1 1 1 1 1 1 1 1] 7 8 9 1 2)
      = some (StatDelta.mk zeroCpu [zeroCpu] 0 0 0 0) := by
  have h := self_sub_zero
    (Stat.mk (StatCpu.mk 1 2 3 4 5 6 7 8 9) [StatCpu.mk 1 1 1 1 1 1 1 1 1] 7 8 9 1 2)
    (by decide) (by decide)
  simpa using h

/-- Counterexample to C9: a snapshot whose `procs_blocked` gauge equals
`2 ^ 63` cannot be differenced against itself — the claimed universal
self-subtraction property fails on it. -/
theorem self_sub_gauge_cex :
    Stat.sub (Stat.mk (StatCpu.mk 0 0 0 0 0 0 0 0 0) [] 0 0 0 0 (2 ^ 63))
      (Stat.mk (StatCpu.mk 0 0 0 0 0 0 0 0 0) [] 0 0 0 0 (2 ^ 63)) = none := by
  decide

/-- Inversion of a successful nine-field checked subtraction: every counter of
the older record is bounded by the newer one and the result is the field-wise
difference. -/
theorem cpu_sub_some_fields (a b d : StatCpu) (h : StatCpu.sub a b = some d) :
    (b.user ≤ a.user ∧ b.nice ≤ a.nice ∧ b.system ≤ a.system ∧ b.idle ≤ a.idle ∧
      b.iowait ≤ a.iowait ∧ b.irq ≤ a.irq ∧ b.softirq ≤ a.softirq ∧ b.steal ≤ a.steal ∧
      b.guest ≤ a.guest) ∧
    d = StatCpu.mk (a.user - b.user) (a.nice - b.nice) (a.system - b.system)
      (a.idle - b.idle) (a.iowait - b.iowait) (a.irq - b.irq) (a.softirq - b.softirq)
      (a.steal - b.steal) (a.guest - b.guest) := by
  rw [cpu_sub_eq] at h
  by_cases hd : cpuDecreased a b
  · simp [hd] at h
  · simp only [hd, if_false] at h
    refine ⟨?_, (Option.some.injEq _ _).mp h.symm ▸ rfl⟩
    simp only [cpuDecreased, not_or, Nat.not_lt] at hd
    tauto

/-- Inversion of a successful checked total. -/
theorem total_some_inv (c : StatCpu) (t : Nat) (h : c.total = some t) :
    t = c.sumFields ∧ c.sumFields < u64Mod := by
  rw [total_eq] at h
  by_cases hs : c.sumFields < u64Mod
  · rw [if_pos hs] at h
    exact ⟨((Option.some.injEq _ _).mp h).symm, hs⟩
  · rw [if_neg hs] at h
    exact Option.noConfusion h

/-- Exact-arithmetic bridge between per-instant totals and the delta: over the
rationals, the difference of the endpoint totals is the delta total, and the
difference of the endpoint `idle + iowait` values is the delta
`idle + iowait`, which is bounded by the delta total. -/
theorem sub_total_idle_cast (a b d : StatCpu) (ta tb td : Nat)
    (hsub : StatCpu.sub a b = some d)
    (ha : a.total = some ta) (hb : b.total = some tb) (hd : d.total = some td) :
    (ta : ℚ) - (tb : ℚ) = (td : ℚ) ∧
      ((a.idle : ℚ) + (a.iowait : ℚ)) - ((b.idle : ℚ) + (b.iowait : ℚ))
        = (d.idle : ℚ) + (d.iowait : ℚ) ∧
      td = d.sumFields ∧
      d.idle + d.iowait ≤ td := by
  obtain ⟨hle, hdeq⟩ := cpu_sub_some_fields a b d hsub
  obtain ⟨hta, _⟩ := total_some_inv a ta ha
  obtain ⟨htb, _⟩ := total_some_inv b tb hb
  obtain ⟨htd, _⟩ := total_some_inv d td hd
  have hnat1 : tb + td = ta := by
    subst hdeq
    simp only [StatCpu.sumFields] at hta htb htd
    simp only [hta, htb, htd, StatCpu.sumFields]
    omega
  have hnat2 : (b.idle + b.iowait) + (d.idle + d.iowait) = a.idle + a.iowait := by
    subst hdeq
    simp only []
    omega
  have hnat3 : d.idle + d.iowait ≤ td := by
    subst hdeq
    simp only [StatCpu.sumFields] at htd
    simp only [htd]
    omega
  refine ⟨?_, ?_, htd, hnat3⟩
  · have : (ta : ℚ) = (tb : ℚ) + (td : ℚ) := by exact_mod_cast congrArg (Nat.cast : Nat → ℚ) hnat1.symm
    linarith
  · have : ((a.idle : ℚ) + (a.iowait : ℚ))
        = ((b.idle : ℚ) + (b.iowait : ℚ)) + ((d.idle : ℚ) + (d.iowait : ℚ)) := by
      exact_mod_cast congrArg (Nat.cast : Nat → ℚ) hnat2.symm
    linarith

/-- A successful full-snapshot subtraction contains a successful aggregate
subtraction. -/
theorem stat_sub_some_totals (a b : Stat) (d : StatDelta) (h : Stat.sub a b = some d) :
    StatCpu.sub a.cpu_totals b.cpu_totals = some d.cpu_totals := by
  unfold Stat.sub at h
  by_cases hlen : a.cpus.length ≠ b.cpus.length
  · simp [hlen] at h
  · rw [if_neg hlen] at h
    cases hcl : subCpusList a.cpus b.cpus with
    | none => rw [hcl] at h; simp at h
    | some cl =>
      rw [hcl] at h
      simp only [Option.bind_eq_bind, Option.some_bind] at h
      cases hct : StatCpu.sub a.cpu_totals b.cpu_totals with
      | none => rw [hct] at h; simp at h
      | some ct =>
        rw [hct] at h
        simp only [Option.bind_eq_bind, Option.some_bind] at h
        cases hc1 : checked_sub a.context_switches b.context_switches with
        | none => rw [hc1] at h; simp at h
        | some v1 =>
          rw [hc1] at h
          simp only [Option.bind_eq_bind, Option.some_bind] at h
          cases hc2 : checked_sub a.processes b.processes with
          | none => rw [hc2] at h; simp at h
          | some v2 =>
            rw [hc2] at h
            simp only [Option.bind_eq_bind, Option.some_bind] at h
            by_cases hg1 : i64MaxN < a.procs_running ∨ i64MaxN < b.procs_running
            · rw [if_pos hg1] at h; simp at h
            · rw [if_neg hg1] at h
              cases hs1 : checked_sub_i64 (a.procs_running : Int) (b.procs_running : Int) with
              | none => rw [hs1] at h; simp at h
              | some p1 =>
                rw [hs1] at h
                simp only [Option.bind_eq_bind, Option.some_bind] at h
                by_cases hg2 : i64MaxN < a.procs_blocked ∨ i64MaxN < b.procs_blocked
                · rw [if_pos hg2] at h; simp at h
                · rw [if_neg hg2] at h
                  cases hs2 : checked_sub_i64 (a.procs_blocked : Int) (b.procs_blocked : Int) with
                  | none => rw [hs2] at h; simp at h
                  | some p2 =>
                    rw [hs2] at h
                    simp only [Option.bind_eq_bind, Option.some_bind, Option.some.injEq] at h
                    rw [← h]

/-- Canonical form of a `CpuDuration` obtained from two sampled instants: its
wall-clock component is the timestamp difference and its two `f64` counters
are exactly the delta total and the delta `idle + iowait`. -/
theorem duration_fields (sN sO : Stat) (tsN tsO : ℚ) (iN iO : CpuInstant)
    (dc : StatCpu) (t : Nat)
    (hN : CpuInstant.now tsN sN = some iN) (hO : CpuInstant.now tsO sO = some iO)
    (hsub : StatCpu.sub sN.cpu_totals sO.cpu_totals = some dc)
    (ht : dc.total = some t) :
    CpuInstant.sub iN iO
      = CpuDuration.mk (tsN - tsO) ((t : Nat) : ℚ) ((dc.idle : ℚ) + (dc.iowait : ℚ)) := by
  cases htN : sN.cpu_totals.total with
  | none => simp [CpuInstant.now, get_cpu_totals, htN] at hN
  | some tN =>
  cases htO : sO.cpu_totals.total with
  | none => simp [CpuInstant.now, get_cpu_totals, htO] at hO
  | some tO =>
  simp [CpuInstant.now, get_cpu_totals, htN] at hN
  simp [CpuInstant.now, get_cpu_totals, htO] at hO
  obtain ⟨hq1, hq2, _, _⟩ :=
    sub_total_idle_cast sN.cpu_totals sO.cpu_totals dc tN tO t hsub htN htO ht
  subst hN
  subst hO
  simp [CpuInstant.sub, CpuDuration.mk.injEq, hq1, hq2]

/-- C4: for every delta of two sampled instants, `idle()` equals
`(aggregate.idle + aggregate.iowait) / aggregate.total()` (in the exact
model of `f64`), `non_idle()` equals `1 - idle()`, no clamping is performed,
both values lie in `[0, 1]` whenever the interval has a positive tick count,
and an interval with `total() = 0` yields the non-finite (NaN-class) value,
not `0` or `1`. -/
theorem idle_frac_props (sN sO : Stat) (tsN tsO : ℚ) (iN iO : CpuInstant)
    (dc : StatCpu) (t : Nat)
    (hN : CpuInstant.now tsN sN = some iN) (hO : CpuInstant.now tsO sO = some iO)
    (hsub : StatCpu.sub sN.cpu_totals sO.cpu_totals = some dc)
    (ht : dc.total = some t) :
    (0 < t →
      (CpuInstant.sub iN iO).idle
          = F64.fin (((dc.idle : ℚ) + (dc.iowait : ℚ)) / (t : ℚ)) ∧
        0 ≤ ((dc.idle : ℚ) + (dc.iowait : ℚ)) / (t : ℚ) ∧
        ((dc.idle : ℚ) + (dc.iowait : ℚ)) / (t : ℚ) ≤ 1 ∧
        (CpuInstant.sub iN iO).non_idle
          = F64.fin (1 - ((dc.idle : ℚ) + (dc.iowait : ℚ)) / (t : ℚ)) ∧
        0 ≤ 1 - ((dc.idle : ℚ) + (dc.iowait : ℚ)) / (t : ℚ) ∧
        1 - ((dc.idle : ℚ) + (dc.iowait : ℚ)) / (t : ℚ) ≤ 1) ∧
    (t = 0 →
      (CpuInstant.sub iN iO).idle = F64.nonfinite ∧
        (CpuInstant.sub iN iO).non_idle = F64.nonfinite) := by
  have hdf := duration_fields sN sO tsN tsO iN iO dc t hN hO hsub ht
  have hnum0 : (0 : ℚ) ≤ (dc.idle : ℚ) + (dc.iowait : ℚ) := by positivity
  have hnumle : dc.idle + dc.iowait ≤ t := by
    obtain ⟨hts, _⟩ := total_some_inv dc t ht
    simp only [hts, StatCpu.sumFields]
    omega
  constructor
  · intro hpos
    have htq : (0 : ℚ) < (t : ℚ) := by exact_mod_cast hpos
    have hne : (t : ℚ) ≠ 0 := ne_of_gt htq
    have hq : ((dc.idle : ℚ) + (dc.iowait : ℚ)) ≤ (t : ℚ) := by exact_mod_cast hnumle
    have hr1 : 0 ≤ ((dc.idle : ℚ) + (dc.iowait : ℚ)) / (t : ℚ) := div_nonneg hnum0 (le_of_lt htq)
    have hr2 : ((dc.idle : ℚ) + (dc.iowait : ℚ)) / (t : ℚ) ≤ 1 := (div_le_one htq).mpr hq
    refine ⟨?_, hr1, hr2, ?_, by linarith, by linarith⟩
    · rw [hdf]
      simp [CpuDuration.idle, fdiv, hne]
    · rw [hdf]
      simp [CpuDuration.non_idle, CpuDuration.idle, fdiv, hne, F64.sub]
  · intro h0
    subst h0
    rw [hdf]
    constructor
    · simp [CpuDuration.idle, fdiv]
    · simp [CpuDuration.non_idle, CpuDuration.idle, fdiv, F64.sub]

/-- Witness for C4 on a concrete pair of snapshots (delta total `4`,
delta idle+iowait `3`). -/
theorem idle_frac_props_w :
    (CpuInstant.sub (CpuInstant.mk 5 6 4) (CpuInstant.mk 3 2 1)).idle
        = F64.fin ((((StatCpu.mk 1 0 0 2 1 0 0 0 0).idle : ℚ)
            + ((StatCpu.mk 1 0 0 2 1 0 0 0 0).iowait : ℚ)) / ((4 : Nat) : ℚ)) ∧
      (CpuInstant.sub (CpuInstant.mk 5 6 4) (CpuInstant.mk 3 2 1)).non_idle
        = F64.fin (1 - (((StatCpu.mk 1 0 0 2 1 0 0 0 0).idle : ℚ)
            + ((StatCpu.mk 1 0 0 2 1 0 0 0 0).iowait : ℚ)) / ((4 : Nat) : ℚ)) := by
  have h := (idle_frac_props
    (Stat.mk (StatCpu.mk 2 0 0 3 1 0 0 0 0) [] 0 0 0 0 0)
    (Stat.mk (StatCpu.mk 1 0 0 1 0 0 0 0 0) [] 0 0 0 0 0)
    5 3 (CpuInstant.mk 5 6 4) (CpuInstant.mk 3 2 1)
    (StatCpu.mk 1 0 0 2 1 0 0 0 0) 4
    (by norm_num [CpuInstant.now, get_cpu_totals, total_eq, StatCpu.sumFields, u64Mod])
    (by norm_num [CpuInstant.now, get_cpu_totals, total_eq, StatCpu.sumFields, u64Mod])
    (by decide) (by decide)).1 (by decide)
  exact ⟨h.1, h.2.2.2.1⟩

/-- C8: for every delta of two sampled instants whose aggregate delta total
is strictly positive, `idle() + non_idle()` equals exactly `1` in the exact
model of `f64` (hence within floating-point tolerance in the code). -/
theorem idle_plus_nonidle_one (sN sO : Stat) (tsN tsO : ℚ) (iN iO : CpuInstant)
    (dc : StatCpu) (t : Nat)
    (hN : CpuInstant.now tsN sN = some iN) (hO : CpuInstant.now tsO sO = some iO)
    (hsub : StatCpu.sub sN.cpu_totals sO.cpu_totals = some dc)
    (ht : dc.total = some t) (hpos : 0 < t) :
    F64.add ((CpuInstant.sub iN iO).idle) ((CpuInstant.sub iN iO).non_idle) = F64.fin 1 := by
  have hdf := duration_fields sN sO tsN tsO iN iO dc t hN hO hsub ht
  rw [hdf]
  have hne : ((t : Nat) : ℚ) ≠ 0 := Nat.cast_ne_zero.mpr (by omega)
  simp only [CpuDuration.idle, CpuDuration.non_idle, fdiv, hne, if_false, F64.sub, F64.add]
  rw [F64.fin.injEq]
  ring

/-- Witness for C8 on a concrete pair of snapshots. -/
theorem idle_plus_nonidle_one_w :
    F64.add ((CpuInstant.sub (CpuInstant.mk 7 6 4) (CpuInstant.mk 2 2 1)).idle)
        ((CpuInstant.sub (CpuInstant.mk 7 6 4) (CpuInstant.mk 2 2 1)).non_idle)
      = F64.fin 1 :=
  idle_plus_nonidle_one
    (Stat.mk (StatCpu.mk 2 0 0 3 1 0 0 0 0) [] 0 0 0 0 0)
    (Stat.mk (StatCpu.mk 1 0 0 1 0 0 0 0 0) [] 0 0 0 0 0)
    7 2 (CpuInstant.mk 7 6 4) (CpuInstant.mk 2 2 1)
    (StatCpu.mk 1 0 0 2 1 0 0 0 0) 4
    (by norm_num [CpuInstant.now, get_cpu_totals, total_eq, StatCpu.sumFields, u64Mod])
    (by norm_num [CpuInstant.now, get_cpu_totals, total_eq, StatCpu.sumFields, u64Mod])
    (by decide) (by decide) (by decide)

/-- C1: snapshot subtraction is supported with the right-hand side both by
value and by reference, and the two impls agree; and the timed subtraction of
two sampled instants refines the spec-level `TimedDelta`: its duration is
`newer.timestamp - older.timestamp` as computed by `timedDeltaSpec` over the
Delta Engine, and its `idle()`/`non_idle()` agree with the §4.3 fraction
`(delta.idle + delta.iowait) / delta.total()` (`idleFracSpec`) whenever the
delta has ticks, NaN-class otherwise. -/
theorem timed_sub_refines :
    (∀ a b : Stat, Stat.sub a b = Stat.subRef a b) ∧
    (∀ (nw od : TimedSnapshotSpec) (iN iO : CpuInstant) (dur : ℚ) (d : StatDelta) (t : Nat),
      CpuInstant.now nw.timestamp nw.snap = some iN →
      CpuInstant.now od.timestamp od.snap = some iO →
      timedDeltaSpec nw od = some (dur, d) →
      d.cpu_totals.total = some t →
      (CpuInstant.sub iN iO).duration = dur ∧
      idleFracSpec d
          = some (((d.cpu_totals.idle : ℚ) + (d.cpu_totals.iowait : ℚ)) / (t : ℚ)) ∧
      (0 < t →
        (CpuInstant.sub iN iO).idle
            = F64.fin (((d.cpu_totals.idle : ℚ) + (d.cpu_totals.iowait : ℚ)) / (t : ℚ)) ∧
          (CpuInstant.sub iN iO).non_idle
            = F64.fin (1 - ((d.cpu_totals.idle : ℚ) + (d.cpu_totals.iowait : ℚ)) / (t : ℚ))) ∧
      (t = 0 →
        (CpuInstant.sub iN iO).idle = F64.nonfinite ∧
          (CpuInstant.sub iN iO).non_idle = F64.nonfinite)) := by
  constructor
  · intro a b
    rfl
  · intro nw od iN iO dur d t hN hO htd ht
    cases hs : Stat.sub nw.snap od.snap with
    | none => simp [timedDeltaSpec, hs] at htd
    | some d0 =>
      simp [timedDeltaSpec, hs, Prod.mk.injEq] at htd
      obtain ⟨hdur, hd0⟩ := htd
      subst hd0
      have hsub := stat_sub_some_totals _ _ _ hs
      have hdf := duration_fields nw.snap od.snap nw.timestamp od.timestamp iN iO
        d0.cpu_totals t hN hO hsub ht
      refine ⟨?_, ?_, ?_, ?_⟩
      · rw [hdf]
        exact hdur
      · simp [idleFracSpec, ht]
      · intro hpos
        have hne : ((t : Nat) : ℚ) ≠ 0 := Nat.cast_ne_zero.mpr (by omega)
        rw [hdf]
        constructor
        · simp [CpuDuration.idle, fdiv, hne]
        · simp [CpuDuration.non_idle, CpuDuration.idle, fdiv, hne, F64.sub]
      · intro h0
        subst h0
        rw [hdf]
        constructor <;> simp [CpuDuration.idle, CpuDuration.non_idle, fdiv, F64.sub]

/-- Witness for C1 on a concrete pair of timed snapshots (elapsed wall time
`5`, delta total `5`, delta idle+iowait `3`). -/
theorem timed_sub_refines_w :
    Stat.sub (Stat.mk (StatCpu.mk 3 0 0 4 2 0 0 0 0) [] 2 2 2 1 1)
        (Stat.mk (StatCpu.mk 1 0 0 2 1 0 0 0 0) [] 1 1 1 1 1)
      = Stat.subRef (Stat.mk (StatCpu.mk 3 0 0 4 2 0 0 0 0) [] 2 2 2 1 1)
        (Stat.mk (StatCpu.mk 1 0 0 2 1 0 0 0 0) [] 1 1 1 1 1) ∧
    (CpuInstant.sub (CpuInstant.mk 9 9 6) (CpuInstant.mk 4 4 3)).duration = 5 ∧
    (CpuInstant.sub (CpuInstant.mk 9 9 6) (CpuInstant.mk 4 4 3)).idle
      = F64.fin ((((StatDelta.mk (StatCpu.mk 2 0 0 2 1 0 0 0 0) [] 1 1 0 0).cpu_totals.idle : ℚ)
          + ((StatDelta.mk (StatCpu.mk 2 0 0 2 1 0 0 0 0) [] 1 1 0 0).cpu_totals.iowait : ℚ))
          / ((5 : Nat) : ℚ)) := by
  have hstat : Stat.sub (Stat.mk (StatCpu.mk 3 0 0 4 2 0 0 0 0) [] 2 2 2 1 1)
      (Stat.mk (StatCpu.mk 1 0 0 2 1 0 0 0 0) [] 1 1 1 1 1)
      = some (StatDelta.mk (StatCpu.mk 2 0 0 2 1 0 0 0 0) [] 1 1 0 0) := by
    decide
  have h := timed_sub_refines.2
    (TimedSnapshotSpec.mk 9 (Stat.mk (StatCpu.mk 3 0 0 4 2 0 0 0 0) [] 2 2 2 1 1))
    (TimedSnapshotSpec.mk 4 (Stat.mk (StatCpu.mk 1 0 0 2 1 0 0 0 0) [] 1 1 1 1 1))
    (CpuInstant.mk 9 9 6) (CpuInstant.mk 4 4 3) 5
    (StatDelta.mk (StatCpu.mk 2 0 0 2 1 0 0 0 0) [] 1 1 0 0) 5
    (by norm_num [CpuInstant.now, get_cpu_totals, total_eq, StatCpu.sumFields, u64Mod])
    (by norm_num [CpuInstant.now, get_cpu_totals, total_eq, StatCpu.sumFields, u64Mod])
    (by simp [timedDeltaSpec, hstat]; norm_num)
    (by decide)
  exact ⟨timed_sub_refines.1 _ _, h.1, (h.2.2.1 (by decide)).1⟩

end CpuMonitor
